import Mathlib

/-!
Verification of the matrix-python-sdk crypto core (OlmDevice key lifecycle and
CryptoStore persistence) against its natural-language specification.

The Python source is shallowly embedded: JSON objects become association lists
(`JObj`) preserving insertion order, as Python 3.7+ dicts do; the opaque
cryptographic engine (libolm) is abstracted by function parameters (a signing
function, a verification predicate, a one-time-key generator); SQLite tables
become lists of rows, and each SQL statement is translated into an explicit
list operation.
-/

namespace MatrixSDK

/-- A JSON value, as manipulated by `olm_device.py`.  Objects are association
lists in insertion order, mirroring Python dict semantics. -/
inductive JVal where
  | null
  | bool (b : Bool)
  | num (n : Int)
  | str (s : String)
  | arr (xs : List JVal)
  | obj (fs : List (String × JVal))

/-- A JSON object: its field list in insertion order. -/
abbrev JObj := List (String × JVal)

/-- Python truthiness of a JSON value (`if unsigned:` in the source). -/
def truthy : JVal → Bool
  | .null => false
  | .bool b => b
  | .num n => n != 0
  | .str s => !s.isEmpty
  | .arr xs => !xs.isEmpty
  | .obj fs => !fs.isEmpty

/-- `d[k]` lookup on a Python dict represented as an association list with
unique keys: value of the first matching key. -/
def dictGet {α : Type} (l : List (String × α)) (k : String) : Option α :=
  (l.find? (fun p => p.1 == k)).map (·.2)

/-- `d[k] = v` on a Python dict: update in place if present, else append. -/
def dictSet {α : Type} (l : List (String × α)) (k : String) (v : α) :
    List (String × α) :=
  if l.any (fun p => p.1 == k) then
    l.map (fun p => if p.1 == k then (k, v) else p)
  else l ++ [(k, v)]

/-- Remove the binding of key `k` (what `dict.pop` removes; a dict has at
most one binding per key, so dropping every match is that one binding). -/
def eraseKey (k : String) (l : JObj) : JObj :=
  l.filter (fun p => !(p.1 == k))

/-- `d.pop(k, default-absent)`: the popped value (if any) and the remaining dict. -/
def popKey (k : String) (l : JObj) : Option JVal × JObj :=
  (dictGet l k, eraseKey k l)

/-- Sort already-encoded fields by key, as canonical JSON does
(`encode_canonical_json` serializes dicts with sorted keys; dict keys are
distinct, so any sort by key yields the same canonical field order). -/
def sortPairs (l : List (String × String)) : List (String × String) :=
  List.insertionSort (fun a b => a.1 ≤ b.1) l

/-- Render a JSON string literal (escaping is abstracted: the canonicaljson
library's exact escapes do not matter to any claim, only determinism does). -/
def jstr (s : String) : String := "\"" ++ s ++ "\""

mutual

/-- `encode_canonical_json`: deterministic serialization with object keys
sorted and no insignificant whitespace. -/
def encodeCanonical : JVal → String
  | .null => "null"
  | .bool b => cond b "true" "false"
  | .num n => toString n
  | .str s => jstr s
  | .arr xs => "[" ++ String.intercalate "," (encodeList xs) ++ "]"
  | .obj fs =>
      "\x7b" ++
        String.intercalate ","
          ((sortPairs (encodeFields fs)).map (fun p => jstr p.1 ++ ":" ++ p.2)) ++
      "\x7d"
  termination_by structural v => v

/-- Encode every element of a JSON array. -/
def encodeList : List JVal → List String
  | [] => []
  | x :: xs => encodeCanonical x :: encodeList xs
  termination_by structural l => l

/-- Encode the value of every field of a JSON object, keeping keys. -/
def encodeFields : List (String × JVal) → List (String × String)
  | [] => []
  | (k, v) :: fs => (k, encodeCanonical v) :: encodeFields fs
  termination_by structural l => l

end

/-! ## OlmDevice.sign_json / OlmDevice.verify_json

`olm.Account.sign` and `olm.ed25519_verify` belong to the opaque cryptographic
engine; they are abstracted as a signing function `signFn : String → String`
(canonical bytes to base64 signature) and a verification predicate
`verifyFn : key → message → signature → Bool` (true = verifies,
false = `OlmVerifyError`).
-/

/-- The canonical bytes `sign_json` actually signs: the payload with its
`signatures` and `unsigned` fields popped, canonically encoded. -/
def signingInput (json : JObj) : String :=
  encodeCanonical (.obj (popKey "unsigned" (popKey "signatures" json).2).2)

/-- `OlmDevice.sign_json`.  `none` models an uncaught Python error: the source
runs `signatures.setdefault(user_id, {})[key_id] = ...`, which fails when the
popped `signatures` value (or its entry for `user_id`) is not a dict.
On success, the returned object is the mutated payload: `signatures` is popped
and re-appended with the new entry added, and `unsigned` is popped and
re-appended only when truthy (`if unsigned:` in the source). -/
def sign_json (signFn : String → String) (user_id device_id : String)
    (json : JObj) : Option JObj :=
  let sigsPopped := popKey "signatures" json
  let unsPopped := popKey "unsigned" sigsPopped.2
  let signature_base64 := signFn (signingInput json)
  let key_id := "ed25519:" ++ device_id
  match sigsPopped.1.getD (.obj []) with
  | .obj sigUsers =>
    match (dictGet sigUsers user_id).getD (.obj []) with
    | .obj userSigs =>
      let sigUsers' := dictSet sigUsers user_id
        (.obj (dictSet userSigs key_id (.str signature_base64)))
      let withSigs := unsPopped.2 ++ [("signatures", .obj sigUsers')]
      some (match unsPopped.1 with
        | some u => if truthy u then withSigs ++ [("unsigned", u)] else withSigs
        | none => withSigs)
    | _ => none
  | _ => none

/-- `OlmDevice.verify_json`.  `.error ()` models an uncaught Python error:
the source's `try` blocks catch only `KeyError`, so indexing a non-dict
`signatures` (or non-dict per-user entry), and handing a non-string signature
to the engine, raise `TypeError` out of the function.  On `.ok (b, j)`,
`b` is the returned boolean and `j` the payload as left by the function. -/
def verify_json (verifyFn : String → String → String → Bool) (json : JObj)
    (user_key user_id device_id : String) : Except Unit (Bool × JObj) :=
  match dictGet json "signatures" with
  | none => .ok (false, json)
  | some sigs =>
    let j1 := eraseKey "signatures" json
    let key_id := "ed25519:" ++ device_id
    match sigs with
    | .obj sigUsers =>
      match dictGet sigUsers user_id with
      | none => .ok (false, j1 ++ [("signatures", sigs)])
      | some userVal =>
        match userVal with
        | .obj userSigs =>
          match dictGet userSigs key_id with
          | none => .ok (false, j1 ++ [("signatures", sigs)])
          | some sigVal =>
            let unsPopped := popKey "unsigned" j1
            match sigVal with
            | .str signature_base64 =>
              let success :=
                verifyFn user_key (encodeCanonical (.obj unsPopped.2)) signature_base64
              let restored := unsPopped.2 ++ [("signatures", sigs)]
              .ok (success,
                match unsPopped.1 with
                | some u => if truthy u then restored ++ [("unsigned", u)] else restored
                | none => restored)
            | _ => .error ()
        | _ => .error ()
    | _ => .error ()

/-! ## OlmDevice one-time-key lifecycle -/

/-- `dict.get(k, 0)` on a counts dict. -/
def lookupCnt (l : List (String × Nat)) (k : String) : Nat :=
  ((l.find? (fun p => p.1 == k)).map (·.2)).getD 0

/-- The `keys_uploaded` dict built by the first loop of `upload_one_time_keys`:
per target flavor, `num_to_create = max(target - known, 0)` (Nat subtraction),
with zero entries skipped (`continue`). -/
def computeKeysUploaded (targets counts : List (String × Nat)) :
    List (String × Nat) :=
  targets.filterMap (fun p =>
    let num_to_create := p.2 - lookupCnt counts p.1
    if num_to_create = 0 then none else some (p.1, num_to_create))

/-- Events emitted by `upload_one_time_keys` towards its collaborators, in
order: a counts query (`api.upload_keys()` with no payload), a key generation
request to the engine, the key publication (`api.upload_keys(one_time_keys=…)`),
and `mark_keys_as_published`. -/
inductive OtkEvent where
  | queryCounts
  | generate (n : Nat)
  | publish (one_time_keys : JObj)
  | markPublished

/-- Result of `upload_one_time_keys`: its return value, the collaborator
events in order, the final `self.one_time_key_counts`, and the engine's
remaining unpublished keys. -/
structure OtkUpload where
  keys_uploaded : List (String × Nat)
  events : List OtkEvent
  one_time_key_counts : List (String × Nat)
  pending : List (String × String)

/-- `OlmDevice.upload_one_time_keys`.  The engine is abstracted by `pending`
(its current unpublished one-time keys, id-to-key in enumeration order) and
`generated n` (the keys a generation request of `n` appends); the transport
by `queryCountsResp` (counts returned by a bare `upload_keys()` call) and
`publishResp` (counts returned by the publication call). -/
def upload_one_time_keys (signFn : String → String) (user_id device_id : String)
    (targets : List (String × Nat)) (counts0 : List (String × Nat))
    (force_update : Bool) (pending : List (String × String))
    (generated : Nat → List (String × String))
    (queryCountsResp : List (String × Nat))
    (publishResp : JObj → List (String × Nat)) : OtkUpload :=
  let doQuery := counts0.isEmpty || force_update
  let counts := if doQuery then queryCountsResp else counts0
  let keys_uploaded := computeKeysUploaded targets counts
  let total := (keys_uploaded.map (·.2)).sum
  let keys := pending ++ generated total
  let signedN := lookupCnt keys_uploaded "signed_curve25519"
  let one_time_keys : JObj := keys.enum.map (fun p =>
    if p.1 < signedN then
      ("signed_curve25519:" ++ p.2.1,
       .obj ((sign_json signFn user_id device_id [("key", .str p.2.2)]).getD []))
    else
      ("curve25519:" ++ p.2.1, .str p.2.2))
  { keys_uploaded := keys_uploaded
    events := (if doQuery then [.queryCounts] else []) ++
      [.generate total, .publish one_time_keys, .markPublished]
    one_time_key_counts := publishResp one_time_keys
    pending := [] }

/-- The replenishment decision of `OlmDevice.update_one_time_key_counts`:
upload when the counts dict is empty, or when some target flavor's count
(0 when absent) is below `target * threshold`. -/
def shouldReplenishOtk (targets : List (String × Nat)) (otk_threshold : ℚ)
    (count : List (String × Nat)) : Bool :=
  if count.isEmpty then true
  else targets.any (fun p =>
    decide ((lookupCnt count p.1 : ℚ) < (p.2 : ℚ) * otk_threshold))

/-- `OlmDevice.update_one_time_key_counts`: stores the received counts and
reports whether `upload_one_time_keys()` is triggered. -/
def update_one_time_key_counts (targets : List (String × Nat))
    (otk_threshold : ℚ) (count : List (String × Nat)) :
    List (String × Nat) × Bool :=
  (count, shouldReplenishOtk targets otk_threshold count)

/-- Python 3 `round` to the nearest integer, ties to even, on exact rationals
(every quantity the constructor rounds is exactly representable). -/
def pyRound (q : ℚ) : ℤ :=
  let f := ⌊q⌋
  let frac := q - f
  if frac < 1/2 then f
  else if (1 : ℚ)/2 < frac then f + 1
  else if f % 2 = 0 then f else f + 1

/-- The one-time-key target computation of `OlmDevice.__init__`:
`target_keys_number = max_one_time_keys // 2`, then
`int(round(proportion * target_keys_number))` for the signed flavor and
`int(round((1 - proportion) * target_keys_number))` for the unsigned one.
`none` models the `ValueError` raised for a proportion outside `[0, 1]`. -/
def otkTargetCounts (signed_otk_proportion : ℚ) (max_one_time_keys : Nat) :
    Option (List (String × ℤ)) :=
  let target_keys_number : ℕ := max_one_time_keys / 2
  if 0 ≤ signed_otk_proportion ∧ signed_otk_proportion ≤ 1 then
    some [("signed_curve25519",
           pyRound (signed_otk_proportion * target_keys_number)),
          ("curve25519",
           pyRound ((1 - signed_otk_proportion) * target_keys_number))]
  else none

/-- The spec's target formula read literally: `round(p * M/2)` and
`round((1-p) * M/2)` with exact division `M/2`.  Kept separate from
`otkTargetCounts` (which embeds the code) so the two can be compared. -/
def specOtkTargets (p : ℚ) (M : Nat) : ℤ × ℤ :=
  (pyRound (p * ((M : ℚ) / 2)), pyRound ((1 - p) * ((M : ℚ) / 2)))

/-! ## CryptoStore

Each SQLite table of `crypto_store.py` becomes a list of rows; pickled blobs
become opaque strings.  Each method's SQL is translated statement by
statement; a `WHERE` clause becomes exactly the corresponding filter, so a
query whose SQL does not mention `device_id` is embedded without a device
filter. -/

/-- Row of `olm_sessions(device_id, session_id, curve_key, session)`. -/
structure OlmSessionRow where
  device_id : String
  session_id : String
  curve_key : String
  session : String
deriving DecidableEq

/-- Row of `megolm_inbound_sessions(device_id, session_id, room_id, curve_key,
session)`. -/
structure InboundSessionRow where
  device_id : String
  session_id : String
  room_id : String
  curve_key : String
  session : String
deriving DecidableEq

/-- Row of `megolm_outbound_sessions(device_id, room_id, session, max_age_s,
max_messages, creation_time, message_count)`. -/
structure OutboundSessionRow where
  device_id : String
  room_id : String
  session : String
  max_age_s : ℚ
  max_messages : Nat
  creation_time : Nat
  message_count : Nat
deriving DecidableEq

/-- Row of `device_keys(device_id, user_id, user_device_id, ed_key,
curve_key)`. -/
structure DeviceKeysRow where
  device_id : String
  user_id : String
  user_device_id : String
  ed_key : String
  curve_key : String
deriving DecidableEq

/-- The database created by `CryptoStore.create_tables_if_needed`.
`megolm_outbound_devices` rows are (device_id, room_id, user_device_id);
`tracked_users` and `sync_tokens` rows are (device_id, user_id) and
(device_id, token); `accounts` rows are (device_id, account blob). -/
structure DB where
  accounts : List (String × String)
  olm_sessions : List OlmSessionRow
  megolm_inbound_sessions : List InboundSessionRow
  megolm_outbound_sessions : List OutboundSessionRow
  megolm_outbound_devices : List (String × String × String)
  device_keys : List DeviceKeysRow
  tracked_users : List (String × String)
  sync_tokens : List (String × String)
deriving DecidableEq

/-- `CryptoStore.remove_olm_account` for local device `dev`:
`DELETE FROM accounts WHERE device_id=?`.  Every dependent table carries
`FOREIGN KEY(device_id) REFERENCES accounts(device_id) ON DELETE CASCADE`
(`megolm_outbound_devices` references `megolm_outbound_sessions(device_id,
room_id)`, itself cascading), so with `PRAGMA foreign_keys = ON` and
referential integrity the cascade removes exactly the rows with this
device id. -/
def remove_olm_account (dev : String) (db : DB) : DB :=
  { accounts := db.accounts.filter (fun r => !(r.1 == dev))
    olm_sessions := db.olm_sessions.filter (fun r => !(r.device_id == dev))
    megolm_inbound_sessions :=
      db.megolm_inbound_sessions.filter (fun r => !(r.device_id == dev))
    megolm_outbound_sessions :=
      db.megolm_outbound_sessions.filter (fun r => !(r.device_id == dev))
    megolm_outbound_devices :=
      db.megolm_outbound_devices.filter (fun r => !(r.1 == dev))
    device_keys := db.device_keys.filter (fun r => !(r.device_id == dev))
    tracked_users := db.tracked_users.filter (fun r => !(r.1 == dev))
    sync_tokens := db.sync_tokens.filter (fun r => !(r.1 == dev)) }

/-- `CryptoStore.get_olm_sessions` (fetch part, sessions as pickled blobs):
`SELECT session FROM olm_sessions WHERE device_id=? AND curve_key=?`; the
method returns `sessions or None`, so an empty result is `None`. -/
def get_olm_sessions (dev curve_key : String) (db : DB) :
    Option (List String) :=
  let sessions := (db.olm_sessions.filter
    (fun r => r.device_id == dev && r.curve_key == curve_key)).map (·.session)
  if sessions.isEmpty then none else some sessions

/-- `CryptoStore.get_inbound_session` (fetch part):
`SELECT session FROM megolm_inbound_sessions WHERE session_id=?` — the SQL
filters on the session id only, so the store's device id (`_dev`) plays no
role; `fetchone` takes the first matching row, `None` if there is none. -/
def get_inbound_session (_dev : String) (session_id : String) (db : DB) :
    Option String :=
  (db.megolm_inbound_sessions.find? (fun r => r.session_id == session_id)).map
    (·.session)

/-- `CryptoStore.get_outbound_session` (fetch part):
`SELECT * FROM megolm_outbound_sessions WHERE device_id=? AND room_id=?`,
plus the shared device ids from `megolm_outbound_devices` for the same
device id and room. -/
def get_outbound_session (dev room_id : String) (db : DB) :
    Option (OutboundSessionRow × List String) :=
  (db.megolm_outbound_sessions.find?
      (fun r => r.device_id == dev && r.room_id == room_id)).map
    (fun row =>
      (row, (db.megolm_outbound_devices.filter
          (fun r => r.1 == dev && r.2.1 == room_id)).map (·.2.2)))

/-- The row selection of `CryptoStore.get_device_keys`: for each queried user,
all of that user's rows when the requested device list is empty, else the rows
of each requested device, always `WHERE device_id=?` on the local device. -/
def selectDeviceKeysRows (dev : String) (user_devices : List (String × List String))
    (db : DB) : List DeviceKeysRow :=
  user_devices.flatMap (fun q =>
    if q.2.isEmpty then
      db.device_keys.filter (fun r => r.device_id == dev && r.user_id == q.1)
    else
      q.2.flatMap (fun d => db.device_keys.filter
        (fun r => r.device_id == dev && r.user_id == q.1 && r.user_device_id == d)))

/-- Nested device-keys map: user id to (peer device id to (ed25519, curve25519)),
in insertion order, as the `defaultdict(dict)` result of `get_device_keys`. -/
abbrev KeysMap := List (String × List (String × (String × String)))

/-- `result[row['user_id']][row['user_device_id']] = {...}` over all fetched
rows, building the nested `defaultdict(dict)`. -/
def buildKeysMap (rows : List DeviceKeysRow) : KeysMap :=
  rows.foldl (fun acc r =>
    dictSet acc r.user_id
      (dictSet ((dictGet acc r.user_id).getD []) r.user_device_id
        (r.ed_key, r.curve_key))) []

/-- Python `dest.update(src)` on a dict: values of keys present in `src` are
replaced wholesale (keeping their position), new keys are appended. -/
def dictUpdate {α : Type} (dest src : List (String × α)) :
    List (String × α) :=
  dest.map (fun p => ((dictGet src p.1).map (fun v => (p.1, v))).getD p) ++
    src.filter (fun p => !(dest.any (fun q => q.1 == p.1)))

/-- `CryptoStore.get_device_keys`: returns the fetched nested map and, when a
destination map is supplied, the destination after
`if device_keys is not None and result: device_keys.update(result)`. -/
def get_device_keys (dev : String) (user_devices : List (String × List String))
    (db : DB) (device_keys : Option KeysMap) : KeysMap × Option KeysMap :=
  let result := buildKeysMap (selectDeviceKeysRows dev user_devices db)
  (result,
   device_keys.map (fun dest =>
     if result.isEmpty then dest else dictUpdate dest result))

/-- `CryptoStore.remove_tracked_users`:
`DELETE FROM tracked_users WHERE user_id=?` for each given user id — the SQL
carries no `device_id` clause, so the store's device id (`_dev`) plays no
role and matching rows of every device are deleted. -/
def remove_tracked_users (_dev : String) (user_ids : List String) (db : DB) :
    DB :=
  { db with tracked_users :=
      db.tracked_users.filter (fun r => !(user_ids.contains r.2)) }

/-- `CryptoStore.load_tracked_users`: `SELECT user_id FROM tracked_users
WHERE device_id=?`, added to the caller's set. -/
def load_tracked_users (dev : String) (db : DB) (tracked : List String) :
    List String :=
  tracked ++ ((db.tracked_users.filter (fun r => r.1 == dev)).map (·.2)).filter
    (fun u => !(tracked.contains u))

/-- `CryptoStore.get_sync_token`: `SELECT token FROM sync_tokens WHERE
device_id=?`, `None` when absent. -/
def get_sync_token (dev : String) (db : DB) : Option String :=
  (db.sync_tokens.find? (fun r => r.1 == dev)).map (·.2)

/-! ## Theorems -/

/-- `⌊M/2⌋` over ℚ agrees with the Nat floor division `M // 2` the code uses. -/
theorem floor_half_nat (M : ℕ) : ⌊(M : ℚ) / 2⌋ = (M / 2 : ℕ) := by
  rw [Int.floor_eq_iff]
  constructor
  · rw [le_div_iff₀ (by norm_num : (0:ℚ) < 2)]
    exact_mod_cast Nat.div_mul_le_self M 2
  · rw [div_lt_iff₀ (by norm_num : (0:ℚ) < 2)]
    have h : M < (M / 2 + 1) * 2 := by omega
    exact_mod_cast h

/-- Claim C2: `update_one_time_key_counts(count)` triggers
`upload_one_time_keys()` if and only if the counts map is empty or some
target flavor's count (0 when absent) is strictly below
`threshold * target`; in particular with target 25 and threshold 0.5 a
signed count of 10 triggers replenishment and a signed count of 13 does
not. -/
theorem update_one_time_key_counts_trigger_iff
    (targets : List (String × Nat)) (thr : ℚ) (count : List (String × Nat)) :
    ((update_one_time_key_counts targets thr count).2 = true ↔
      (count = [] ∨
        ∃ p ∈ targets, (lookupCnt count p.1 : ℚ) < (p.2 : ℚ) * thr)) ∧
    (update_one_time_key_counts [("signed_curve25519", 25), ("curve25519", 0)]
      (1/2) [("signed_curve25519", 10)]).2 = true ∧
    (update_one_time_key_counts [("signed_curve25519", 25), ("curve25519", 0)]
      (1/2) [("signed_curve25519", 13)]).2 = false := by
  refine ⟨?_, ?_, ?_⟩
  · simp [update_one_time_key_counts, shouldReplenishOtk, List.isEmpty_iff]
  · simp [update_one_time_key_counts, shouldReplenishOtk, lookupCnt]; norm_num
  · simp [update_one_time_key_counts, shouldReplenishOtk, lookupCnt]; norm_num

/-- Claim C8, counterexample: for proportion `p = 1` and engine capacity
`M = 103`, the constructor computes a signed target of
`round(1 * (103 // 2)) = 51`, while the claimed formula `round(p * M/2)`
gives `round(51.5) = 52` — the claim's exact division `M/2` differs from the
code's floor division for odd `M`. -/
theorem otkTargetCounts_counterexample :
    otkTargetCounts 1 103 = some [("signed_curve25519", 51), ("curve25519", 0)] ∧
    specOtkTargets 1 103 = (52, 0) := by
  constructor
  · simp only [otkTargetCounts]
    rw [if_pos (by norm_num)]
    unfold pyRound
    norm_num
  · unfold specOtkTargets pyRound
    norm_num

/-- Claim C8, amended: at construction, for every proportion `p ∈ [0,1]` and
engine capacity `M`, the signed target is `round(p * ⌊M/2⌋)` and the unsigned
target `round((1-p) * ⌊M/2⌋)` — floor division, rounding half to even. -/
theorem otkTargetCounts_amended (p : ℚ) (M : ℕ) (h0 : 0 ≤ p) (h1 : p ≤ 1) :
    otkTargetCounts p M =
      some [("signed_curve25519", pyRound (p * ((⌊(M : ℚ) / 2⌋ : ℤ) : ℚ))),
            ("curve25519", pyRound ((1 - p) * ((⌊(M : ℚ) / 2⌋ : ℤ) : ℚ)))] := by
  simp only [otkTargetCounts]
  rw [if_pos (⟨h0, h1⟩ : 0 ≤ p ∧ p ≤ 1), floor_half_nat M]
  norm_cast

/-- Claim C8, witness: at `p = 0.5`, `M = 100` the hypotheses hold and the
amended formula evaluates to the claimed targets 25 and 25. -/
theorem otkTargetCounts_witness :
    (0 : ℚ) ≤ 1/2 ∧ (1/2 : ℚ) ≤ 1 ∧
    otkTargetCounts (1/2) 100 =
      some [("signed_curve25519", 25), ("curve25519", 25)] := by
  refine ⟨by norm_num, by norm_num, ?_⟩
  rw [otkTargetCounts_amended (1/2) 100 (by norm_num) (by norm_num)]
  unfold pyRound
  norm_num

/-- A filter that requires the removed device id finds nothing among the rows
kept by the cascade. -/
theorem filter_after_remove {α : Type} (l : List α) (f : α → String)
    (dev : String) (p : α → Bool) (hp : ∀ a, p a = true → f a = dev) :
    (l.filter (fun a => !(f a == dev))).filter p = [] := by
  apply List.filter_eq_nil_iff.mpr
  intro r hr hq
  rw [List.mem_filter] at hr
  have h := hp r hq
  simp [h] at hr

/-- A `find?` whose predicate forces the removed device id fails among the
rows kept by the cascade. -/
theorem find?_after_remove {α : Type} (l : List α) (f : α → String)
    (dev : String) (p : α → Bool) (hp : ∀ a ∈ l, p a = true → f a = dev) :
    (l.filter (fun a => !(f a == dev))).find? p = none := by
  apply List.find?_eq_none.mpr
  intro r hr hq
  rw [List.mem_filter] at hr
  have h := hp r hr.1 hq
  simp [h] at hr

/-- Claim C5: after `remove_olm_account`, every dependent record owned by
that device id is gone via the schema's `ON DELETE CASCADE` foreign keys:
`get_olm_sessions`, `get_inbound_session` (for a session id whose rows all
belonged to that device), `get_outbound_session`, `get_device_keys`,
`load_tracked_users` and `get_sync_token` all return absent or empty. -/
theorem remove_olm_account_cascade (db : DB) (dev ck room sid : String)
    (hsid : ∀ r ∈ db.megolm_inbound_sessions,
      r.session_id = sid → r.device_id = dev) :
    get_olm_sessions dev ck (remove_olm_account dev db) = none ∧
    get_inbound_session dev sid (remove_olm_account dev db) = none ∧
    get_outbound_session dev room (remove_olm_account dev db) = none ∧
    (∀ q dest, (get_device_keys dev q (remove_olm_account dev db) dest).1 = []) ∧
    load_tracked_users dev (remove_olm_account dev db) [] = [] ∧
    get_sync_token dev (remove_olm_account dev db) = none := by
  refine ⟨?_, ?_, ?_, ?_, ?_, ?_⟩
  · simp only [get_olm_sessions, remove_olm_account]
    rw [filter_after_remove db.olm_sessions (fun r => r.device_id) dev _
      (by intro a ha; simp at ha; tauto)]
    rfl
  · simp only [get_inbound_session, remove_olm_account]
    rw [find?_after_remove db.megolm_inbound_sessions (fun r => r.device_id) dev _
      (by intro a ha hq; exact hsid a ha (by simpa using hq))]
    rfl
  · simp only [get_outbound_session, remove_olm_account]
    rw [find?_after_remove db.megolm_outbound_sessions (fun r => r.device_id) dev _
      (by intro a _ hq; simp at hq; tauto)]
    rfl
  · intro q dest
    simp only [get_device_keys]
    have hsel : selectDeviceKeysRows dev q (remove_olm_account dev db) = [] := by
      simp only [selectDeviceKeysRows, remove_olm_account]
      apply List.flatMap_eq_nil_iff.mpr
      intro q' _
      split
      · exact filter_after_remove db.device_keys (fun r => r.device_id) dev _
          (by intro a ha; simp at ha; tauto)
      · apply List.flatMap_eq_nil_iff.mpr
        intro d _
        exact filter_after_remove db.device_keys (fun r => r.device_id) dev _
          (by intro a ha; simp at ha; tauto)
    rw [hsel]
    rfl
  · simp [load_tracked_users, remove_olm_account, List.filter_filter]
  · simp only [get_sync_token, remove_olm_account]
    rw [find?_after_remove db.sync_tokens (fun r => r.1) dev _
      (by intro a _ hq; simpa using hq)]
    rfl

/-- A one-row-per-table database for device `"A"`, used to instantiate the
cascade theorem. -/
def dbC5 : DB :=
  { accounts := [("A", "acct")]
    olm_sessions := [⟨"A", "s1", "ck", "osess"⟩]
    megolm_inbound_sessions := [⟨"A", "i1", "r1", "ck", "isess"⟩]
    megolm_outbound_sessions := [⟨"A", "r1", "gsess", 1, 100, 0, 0⟩]
    megolm_outbound_devices := [("A", "r1", "D2")]
    device_keys := [⟨"A", "@u", "D2", "edk", "cuk"⟩]
    tracked_users := [("A", "@u")]
    sync_tokens := [("A", "tok")] }

/-- Claim C5, witness: the cascade theorem applied to a concrete populated
database. -/
theorem remove_olm_account_cascade_witness :
    (∀ r ∈ dbC5.megolm_inbound_sessions, r.session_id = "i1" → r.device_id = "A") ∧
    (get_olm_sessions "A" "ck" (remove_olm_account "A" dbC5) = none ∧
     get_inbound_session "A" "i1" (remove_olm_account "A" dbC5) = none ∧
     get_outbound_session "A" "r1" (remove_olm_account "A" dbC5) = none ∧
     (∀ q dest, (get_device_keys "A" q (remove_olm_account "A" dbC5) dest).1 = []) ∧
     load_tracked_users "A" (remove_olm_account "A" dbC5) [] = [] ∧
     get_sync_token "A" (remove_olm_account "A" dbC5) = none) := by
  constructor
  · decide
  · exact remove_olm_account_cascade dbC5 "A" "ck" "r1" "i1" (by decide)

/-- A two-device database: devices `"A"` and `"B"` each track `"@u"`, and an
inbound group session belongs to device `"B"`. -/
def dbC6 : DB :=
  { accounts := [("A", ""), ("B", "")]
    olm_sessions := []
    megolm_inbound_sessions := [⟨"B", "sidB", "r1", "ck", "sessB"⟩]
    megolm_outbound_sessions := []
    megolm_outbound_devices := []
    device_keys := []
    tracked_users := [("A", "@u"), ("B", "@u")]
    sync_tokens := [] }

/-- Claim C6, counterexample: a store configured for device `"A"` deletes
device `"B"`'s tracked-user row (the `DELETE` has no `device_id` clause) and
returns an inbound group session stored under device `"B"` (the `SELECT`
filters on `session_id` only), so rows of other devices are neither left
unchanged nor invisible. -/
theorem crypto_store_scoping_counterexample :
    (("B", "@u") ∈ dbC6.tracked_users ∧ ("B" : String) ≠ "A" ∧
      ("B", "@u") ∉ (remove_tracked_users "A" ["@u"] dbC6).tracked_users) ∧
    (⟨"B", "sidB", "r1", "ck", "sessB"⟩ : InboundSessionRow) ∈
        dbC6.megolm_inbound_sessions ∧
    get_inbound_session "A" "sidB" dbC6 = some "sessB" := by
  decide

/-- Changing every inbound row's device id does not affect what
`get_inbound_session` finds, because its query never reads the device id. -/
theorem find?_session_map_deviceIds (l : List InboundSessionRow)
    (f : String → String) (sid : String) :
    ((l.map (fun row => { row with device_id := f row.device_id })).find?
        (fun r => r.session_id == sid)).map (fun r => r.session) =
      (l.find? (fun r => r.session_id == sid)).map (fun r => r.session) := by
  induction l with
  | nil => rfl
  | cons r rs ih =>
    by_cases h : r.session_id == sid
    · simp [List.find?, h]
    · simp only [List.map_cons, List.find?]
      rw [show ({ r with device_id := f r.device_id } :
        InboundSessionRow).session_id = r.session_id from rfl]
      simp only [h]
      exact ih

/-- Claim C6, amended: most operations are scoped to the store's device id,
but `remove_tracked_users` deletes the rows matching the given user ids for
every device id (membership after deletion depends only on the user id), and
`get_inbound_session` looks the session up by session id alone — its result
is unchanged if the querying device differs or if every row's device id is
rewritten arbitrarily. -/
theorem crypto_store_scoping_amended (dev dev' : String) (ids : List String)
    (db db2 : DB) (r : String × String) (sid : String) (f : String → String) :
    (r ∈ (remove_tracked_users dev ids db).tracked_users ↔
      (r ∈ db.tracked_users ∧ r.2 ∉ ids)) ∧
    get_inbound_session dev sid
        { db2 with megolm_inbound_sessions := (db2.megolm_inbound_sessions.map
            (fun row => { row with device_id := f row.device_id })) } =
      get_inbound_session dev' sid db2 := by
  constructor
  · simp [remove_tracked_users, List.mem_filter]
  · simp only [get_inbound_session]
    exact find?_session_map_deviceIds db2.megolm_inbound_sessions f sid

/-- Head hit for dict lookup on an association list. -/
theorem dictGet_cons_pos {α : Type} (p : String × α) (l : List (String × α))
    (k : String) (h : (p.1 == k) = true) : dictGet (p :: l) k = some p.2 := by
  rw [dictGet, List.find?_cons_of_pos (p := fun q => q.1 == k) l h]
  rfl

/-- Head miss for dict lookup on an association list. -/
theorem dictGet_cons_neg {α : Type} (p : String × α) (l : List (String × α))
    (k : String) (h : (p.1 == k) = false) : dictGet (p :: l) k = dictGet l k := by
  rw [dictGet, List.find?_cons_of_neg _ (by simp [h]), dictGet]

/-- Dict lookup over a concatenation prefers the left part. -/
theorem dictGet_append {α : Type} (l1 l2 : List (String × α)) (k : String) :
    dictGet (l1 ++ l2) k = (dictGet l1 k).or (dictGet l2 k) := by
  induction l1 with
  | nil => rfl
  | cons p ps ih =>
    by_cases h : p.1 == k
    · rw [List.cons_append, dictGet_cons_pos p _ k h, dictGet_cons_pos p _ k h]
      rfl
    · rw [List.cons_append, dictGet_cons_neg p _ k (by simpa using h),
        dictGet_cons_neg p _ k (by simpa using h), ih]

/-- Lookup in the overwritten part of `dictUpdate`: each key of `dest` keeps
its position but takes `src`'s value when `src` has the key. -/
theorem dictGet_updateLeft {α : Type} (dest src : List (String × α)) (k : String) :
    dictGet (dest.map (fun p => ((dictGet src p.1).map (fun v => (p.1, v))).getD p)) k =
      (dictGet dest k).map (fun v => (dictGet src k).getD v) := by
  induction dest with
  | nil => rfl
  | cons p ps ih =>
    have h1 : (((dictGet src p.1).map (fun v => (p.1, v))).getD p).1 = p.1 := by
      cases dictGet src p.1 <;> rfl
    have h2 : (((dictGet src p.1).map (fun v => (p.1, v))).getD p).2 =
        (dictGet src p.1).getD p.2 := by
      cases dictGet src p.1 <;> rfl
    by_cases h : p.1 == k
    · have hk : p.1 = k := by simpa using h
      rw [List.map_cons,
        dictGet_cons_pos _ _ k (by rw [h1]; exact h),
        dictGet_cons_pos p ps k h, h2, hk]
      cases dictGet src k <;> rfl
    · rw [List.map_cons,
        dictGet_cons_neg _ _ k (by rw [h1]; simpa using h),
        dictGet_cons_neg p ps k (by simpa using h), ih]

/-- Lookup in the appended part of `dictUpdate`: keys already in `dest` are
filtered out, fresh keys look up in `src`. -/
theorem dictGet_filterNew {α : Type} (dest src : List (String × α)) (k : String) :
    dictGet (src.filter (fun p => !(dest.any (fun q => q.1 == p.1)))) k =
      if dest.any (fun q => q.1 == k) then none else dictGet src k := by
  induction src with
  | nil => cases h : dest.any (fun q => q.1 == k) <;> simp [dictGet, h]
  | cons p ps ih =>
    by_cases h : p.1 == k
    · have hk : p.1 = k := by simpa using h
      by_cases hd : dest.any (fun q => q.1 == k)
      · rw [List.filter_cons, if_neg (by rw [hk]; simp [hd])]
        rw [ih, if_pos hd, if_pos hd]
      · rw [List.filter_cons, if_pos (by rw [hk]; simp [hd])]
        rw [dictGet_cons_pos p _ k h, if_neg hd, dictGet_cons_pos p ps k h]
    · rw [List.filter_cons]
      by_cases hp : dest.any (fun q => q.1 == p.1)
      · rw [if_neg (by simp [hp]), ih]
        by_cases hd : dest.any (fun q => q.1 == k)
        · rw [if_pos hd, if_pos hd]
        · rw [if_neg hd, if_neg hd, dictGet_cons_neg p ps k (by simpa using h)]
      · rw [if_pos (by simp [hp]), dictGet_cons_neg p _ k (by simpa using h), ih]
        by_cases hd : dest.any (fun q => q.1 == k)
        · rw [if_pos hd, if_pos hd]
        · rw [if_neg hd, if_neg hd, dictGet_cons_neg p ps k (by simpa using h)]

/-- `dict.update` semantics: after `dest.update(src)`, looking up a key gives
`src`'s value when present, else `dest`'s — the value is replaced wholesale,
never merged. -/
theorem dictGet_dictUpdate {α : Type} (dest src : List (String × α)) (k : String) :
    dictGet (dictUpdate dest src) k = (dictGet src k).or (dictGet dest k) := by
  rw [dictUpdate, dictGet_append, dictGet_updateLeft, dictGet_filterNew]
  have hany : dest.any (fun q => q.1 == k) = (dictGet dest k).isSome := by
    induction dest with
    | nil => rfl
    | cons p ps ih =>
      by_cases h : p.1 == k
      · simp [List.any_cons, dictGet_cons_pos p ps k h, h]
      · simp only [List.any_cons, dictGet_cons_neg p ps k (by simpa using h), h,
          Bool.false_or]
        exact ih
  rw [hany]
  cases hdest : dictGet dest k <;> cases hsrc : dictGet src k <;> rfl

/-- One stored row for `("@u", "d2")` under local device `"dev"`. -/
def dbC7 : DB :=
  { accounts := [("dev", "")]
    olm_sessions := []
    megolm_inbound_sessions := []
    megolm_outbound_sessions := []
    megolm_outbound_devices := []
    device_keys := [⟨"dev", "@u", "d2", "E2", "C2"⟩]
    tracked_users := []
    sync_tokens := [] }

/-- A destination map already holding keys for `("@u", "d1")`. -/
def destC7 : KeysMap := [("@u", [("d1", ("E1", "C1"))])]

/-- Claim C7, counterexample: the destination holds an entry for
`("@u", "d1")` and the fetch returns only a row keyed `("@u", "d2")` —
a different (user id, device id) key — yet after the merge the
`("@u", "d1")` entry is gone, because `dict.update` replaces the whole
per-user dict. -/
theorem get_device_keys_merge_counterexample :
    dictGet ((dictGet destC7 "@u").getD []) "d1" = some ("E1", "C1") ∧
    (get_device_keys "dev" [("@u", ["d2"])] dbC7 (some destC7)).1 =
      [("@u", [("d2", ("E2", "C2"))])] ∧
    (get_device_keys "dev" [("@u", ["d2"])] dbC7 (some destC7)).2 =
      some [("@u", [("d2", ("E2", "C2"))])] ∧
    dictGet ((dictGet (((get_device_keys "dev" [("@u", ["d2"])] dbC7
        (some destC7)).2).getD []) "@u").getD []) "d1" = none := by
  decide

/-- Claim C7, amended: `get_device_keys` merges the fetched map into the
destination per user id — for each user id in the fetched result the
destination's whole entry for that user is replaced by the fetched one,
users absent from the result keep their entries (and an empty result leaves
the destination untouched); the fetched rows are also returned. -/
theorem get_device_keys_merge_amended (dev : String)
    (q : List (String × List String)) (db : DB) (dest : KeysMap) (u : String) :
    ∃ d', (get_device_keys dev q db (some dest)).2 = some d' ∧
      dictGet d' u =
        ((dictGet (get_device_keys dev q db (some dest)).1 u).or
          (dictGet dest u)) := by
  refine ⟨_, rfl, ?_⟩
  simp only [get_device_keys]
  by_cases h : (buildKeysMap (selectDeviceKeysRows dev q db)).isEmpty = true
  · have he : buildKeysMap (selectDeviceKeysRows dev q db) = [] :=
      List.isEmpty_iff.mp h
    simp [he, dictGet]
  · rw [if_neg h, dictGet_dictUpdate]


/-- Lookup in the empty dict. -/
theorem dictGet_nil {α : Type} (k : String) : dictGet ([] : List (String × α)) k = none := rfl

/-- A key occurs in an association list exactly when its lookup succeeds. -/
theorem any_eq_isSome_dictGet {α : Type} (l : List (String × α)) (k : String) :
    l.any (fun q => q.1 == k) = (dictGet l k).isSome := by
  induction l with
  | nil => rfl
  | cons p ps ih =>
    by_cases h : p.1 == k
    · simp [List.any_cons, dictGet_cons_pos p ps k h, h]
    · simp only [List.any_cons, dictGet_cons_neg p ps k (by simpa using h), h,
        Bool.false_or]
      exact ih

/-- Lookup of the key of a re-appended binding. -/
theorem dictGet_append_singleton_pos {α : Type} (l : List (String × α))
    (a : String) (v : α) :
    dictGet (l ++ [(a, v)]) a = (dictGet l a).or (some v) := by
  rw [dictGet_append, dictGet_cons_pos (a, v) [] a (by simp)]

/-- A re-appended binding does not affect other keys. -/
theorem dictGet_append_singleton_ne {α : Type} (l : List (String × α))
    (a : String) (v : α) (k : String) (h : k ≠ a) :
    dictGet (l ++ [(a, v)]) k = dictGet l k := by
  rw [dictGet_append, dictGet_cons_neg (a, v) [] k (by simp [Ne.symm h])]
  cases dictGet l k <;> rfl

/-- After popping a key, its lookup fails. -/
theorem dictGet_eraseKey_self (l : JObj) (k : String) :
    dictGet (eraseKey k l) k = none := by
  rw [eraseKey, dictGet]
  rw [List.find?_eq_none.mpr]
  · rfl
  · intro p hp
    rw [List.mem_filter] at hp
    simpa using hp.2

/-- Popping a key does not affect other keys. -/
theorem dictGet_eraseKey_ne (l : JObj) {k k' : String} (h : k ≠ k') :
    dictGet (eraseKey k' l) k = dictGet l k := by
  induction l with
  | nil => rfl
  | cons p ps ih =>
    rw [eraseKey, List.filter_cons]
    by_cases hp : p.1 == k'
    · rw [if_neg (by simp [hp])]
      rw [show (List.filter (fun p => !(p.1 == k')) ps) = eraseKey k' ps from rfl,
        ih, dictGet_cons_neg p ps k
          (by have : p.1 = k' := by simpa using hp
              simp [this, Ne.symm h])]
    · rw [if_pos (by simp [hp])]
      by_cases hk : p.1 == k
      · rw [dictGet_cons_pos p _ k hk, dictGet_cons_pos p ps k hk]
      · rw [dictGet_cons_neg p _ k (by simpa using hk),
          dictGet_cons_neg p ps k (by simpa using hk),
          show (List.filter (fun p => !(p.1 == k')) ps) = eraseKey k' ps from rfl,
          ih]

/-- After `d[k] = v`, looking up `k` gives `v`. -/
theorem dictGet_dictSet_self {α : Type} (l : List (String × α)) (k : String)
    (v : α) : dictGet (dictSet l k v) k = some v := by
  induction l with
  | nil =>
    rw [dictSet, if_neg (by simp)]
    exact dictGet_cons_pos (k, v) [] k (by simp)
  | cons p ps ih =>
    by_cases hp : p.1 == k
    · rw [dictSet, if_pos (by simp [List.any_cons, hp]), List.map_cons, if_pos hp]
      exact dictGet_cons_pos (k, v) _ k (by simp)
    · by_cases hps : ps.any (fun q => q.1 == k)
      · rw [dictSet, if_pos (by simp [List.any_cons, hps]), List.map_cons,
          if_neg hp, dictGet_cons_neg _ _ k (by simpa using hp)]
        have h2 := ih
        rw [dictSet, if_pos hps] at h2
        exact h2
      · rw [dictSet, if_neg (by simp [List.any_cons, hp, hps]), List.cons_append,
          dictGet_cons_neg _ _ k (by simpa using hp),
          dictGet_append_singleton_pos ps k v]
        have hnone : dictGet ps k = none := by
          have h3 := any_eq_isSome_dictGet ps k
          rw [Bool.eq_false_iff.mpr hps] at h3
          cases hd : dictGet ps k
          · rfl
          · rw [hd] at h3; simp at h3
        rw [hnone]
        rfl


/-- Properties of the payload `sign_json` and `verify_json` hand back: the
fields other than `signatures` and `unsigned` read as in the input, the
popped `unsigned` is re-appended only when truthy, and `signatures` reads as
the re-appended value `X`. -/
theorem sign_out_props (json : JObj) (X : JVal) :
    (∀ k, k ≠ "signatures" → k ≠ "unsigned" →
      dictGet (match dictGet (eraseKey "signatures" json) "unsigned" with
        | some u => if truthy u then
            (eraseKey "unsigned" (eraseKey "signatures" json) ++
              [("signatures", X)]) ++ [("unsigned", u)]
          else eraseKey "unsigned" (eraseKey "signatures" json) ++
            [("signatures", X)]
        | none => eraseKey "unsigned" (eraseKey "signatures" json) ++
            [("signatures", X)]) k = dictGet json k) ∧
    dictGet (match dictGet (eraseKey "signatures" json) "unsigned" with
        | some u => if truthy u then
            (eraseKey "unsigned" (eraseKey "signatures" json) ++
              [("signatures", X)]) ++ [("unsigned", u)]
          else eraseKey "unsigned" (eraseKey "signatures" json) ++
            [("signatures", X)]
        | none => eraseKey "unsigned" (eraseKey "signatures" json) ++
            [("signatures", X)]) "unsigned" =
      (dictGet json "unsigned").filter truthy ∧
    dictGet (match dictGet (eraseKey "signatures" json) "unsigned" with
        | some u => if truthy u then
            (eraseKey "unsigned" (eraseKey "signatures" json) ++
              [("signatures", X)]) ++ [("unsigned", u)]
          else eraseKey "unsigned" (eraseKey "signatures" json) ++
            [("signatures", X)]
        | none => eraseKey "unsigned" (eraseKey "signatures" json) ++
            [("signatures", X)]) "signatures" = some X := by
  have hju : dictGet (eraseKey "signatures" json) "unsigned" = dictGet json "unsigned" :=
    dictGet_eraseKey_ne json (by decide)
  have hself : dictGet (eraseKey "unsigned" (eraseKey "signatures" json)) "unsigned" = none :=
    dictGet_eraseKey_self _ "unsigned"
  refine ⟨?_, ?_, ?_⟩
  · intro k hks hku
    rw [hju]
    cases hu : dictGet json "unsigned" with
    | none =>
      rw [dictGet_append_singleton_ne _ _ _ k hks,
        dictGet_eraseKey_ne _ hku, dictGet_eraseKey_ne _ hks]
    | some u =>
      cases ht : truthy u with
      | true =>
        simp only [ht, if_true]
        rw [dictGet_append_singleton_ne _ _ _ k hku,
          dictGet_append_singleton_ne _ _ _ k hks,
          dictGet_eraseKey_ne _ hku, dictGet_eraseKey_ne _ hks]
      | false =>
        simp only [ht, Bool.false_eq_true, if_false]
        rw [dictGet_append_singleton_ne _ _ _ k hks,
          dictGet_eraseKey_ne _ hku, dictGet_eraseKey_ne _ hks]
  · rw [hju]
    cases hu : dictGet json "unsigned" with
    | none =>
      rw [dictGet_append_singleton_ne _ _ _ "unsigned" (by decide), hself]
      rfl
    | some u =>
      cases ht : truthy u with
      | true =>
        simp only [ht, if_true]
        rw [dictGet_append_singleton_pos,
          dictGet_append_singleton_ne _ _ _ "unsigned" (by decide), hself]
        simp [Option.filter, ht]
      | false =>
        simp only [ht, Bool.false_eq_true, if_false]
        rw [dictGet_append_singleton_ne _ _ _ "unsigned" (by decide), hself]
        simp [Option.filter, ht]
  · rw [hju]
    have hsig2 : dictGet (eraseKey "unsigned" (eraseKey "signatures" json))
        "signatures" = none := by
      rw [dictGet_eraseKey_ne _ (by decide), dictGet_eraseKey_self]
    cases hu : dictGet json "unsigned" with
    | none =>
      rw [dictGet_append_singleton_pos, hsig2]
      rfl
    | some u =>
      cases ht : truthy u with
      | true =>
        simp only [ht, if_true]
        rw [dictGet_append_singleton_ne _ _ _ "signatures" (by decide),
          dictGet_append_singleton_pos, hsig2]
        rfl
      | false =>
        simp only [ht, Bool.false_eq_true, if_false]
        rw [dictGet_append_singleton_pos, hsig2]
        rfl


/-- The precondition under which `sign_json`'s `setdefault`-and-assign does
not raise: the payload's `signatures` field, when present, is an object, and
its entry for the signing user, when present, is an object. -/
def signShapeOk (json : JObj) (user_id : String) : Bool :=
  match dictGet json "signatures" with
  | none => true
  | some (.obj sigUsers) =>
    match dictGet sigUsers user_id with
    | none => true
    | some (.obj _) => true
    | some _ => false
  | some _ => false

/-- What `sign_json` does under the shape precondition: it succeeds, leaves
every other field readable as before, re-adds a truthy `unsigned` only, and
its new signature entry is `signFn` of the canonical serialization of the
payload without `signatures`/`unsigned`. -/
theorem sign_json_spec (signFn : String → String) (uid did : String) (json : JObj)
    (hs : signShapeOk json uid = true) :
    ∃ out, sign_json signFn uid did json = some out ∧
      (∀ k, k ≠ "signatures" → k ≠ "unsigned" → dictGet out k = dictGet json k) ∧
      dictGet out "unsigned" = (dictGet json "unsigned").filter truthy ∧
      (∃ su us, dictGet out "signatures" = some (JVal.obj su) ∧
        dictGet su uid = some (JVal.obj us) ∧
        dictGet us ("ed25519:" ++ did) =
          some (JVal.str (signFn (signingInput json)))) := by
  rcases hsig : dictGet json "signatures" with _ | sigs
  · obtain ⟨hframe, huns, hsigout⟩ := sign_out_props json
      (JVal.obj (dictSet [] uid (JVal.obj (dictSet [] ("ed25519:" ++ did)
        (JVal.str (signFn (signingInput json)))))))
    refine ⟨_, ?_, hframe, huns, _, _, hsigout,
      dictGet_dictSet_self _ uid _, dictGet_dictSet_self _ _ _⟩
    simp only [sign_json, popKey, hsig, dictGet_nil, Option.getD_none, Option.getD_some]
  · cases sigs with
    | obj sigUsers =>
      have hs' : (match dictGet sigUsers uid with
          | none => true
          | some (.obj _) => true
          | some _ => false) = true := by
        rw [signShapeOk, hsig] at hs
        exact hs
      rcases huser : dictGet sigUsers uid with _ | uv
      · obtain ⟨hframe, huns, hsigout⟩ := sign_out_props json
          (JVal.obj (dictSet sigUsers uid (JVal.obj (dictSet []
            ("ed25519:" ++ did) (JVal.str (signFn (signingInput json)))))))
        refine ⟨_, ?_, hframe, huns, _, _, hsigout,
          dictGet_dictSet_self _ uid _, dictGet_dictSet_self _ _ _⟩
        simp only [sign_json, popKey, hsig, huser, Option.getD_none,
          Option.getD_some]
      · rw [huser] at hs'
        cases uv with
        | obj userSigs =>
          obtain ⟨hframe, huns, hsigout⟩ := sign_out_props json
            (JVal.obj (dictSet sigUsers uid (JVal.obj (dictSet userSigs
              ("ed25519:" ++ did) (JVal.str (signFn (signingInput json)))))))
          refine ⟨_, ?_, hframe, huns, _, _, hsigout,
            dictGet_dictSet_self _ uid _, dictGet_dictSet_self _ _ _⟩
          simp only [sign_json, popKey, hsig, huser, Option.getD_none,
            Option.getD_some]
        | null => simp at hs'
        | bool b => simp at hs'
        | num n => simp at hs'
        | str s => simp at hs'
        | arr xs => simp at hs'
    | null => simp [signShapeOk, hsig] at hs
    | bool b => simp [signShapeOk, hsig] at hs
    | num n => simp [signShapeOk, hsig] at hs
    | str s => simp [signShapeOk, hsig] at hs
    | arr xs => simp [signShapeOk, hsig] at hs


/-- The signature `verify_json` looks up: `signatures[user_id]["ed25519:<device_id>"]`. -/
def sigEntry (json : JObj) (user_id device_id : String) : Option JVal :=
  match dictGet json "signatures" with
  | some (.obj sigUsers) =>
    match dictGet sigUsers user_id with
    | some (.obj userSigs) => dictGet userSigs ("ed25519:" ++ device_id)
    | _ => none
  | _ => none

/-- Whether the payload carries a signature entry for this user and device. -/
def hasSigEntry (json : JObj) (user_id device_id : String) : Bool :=
  (sigEntry json user_id device_id).isSome

/-- The precondition under which `verify_json`'s indexing and engine call
raise no `TypeError`: `signatures`, when present, is an object; its per-user
entry, when present, an object; its signature value, when present, a string. -/
def verifyShapeOk (json : JObj) (user_id device_id : String) : Bool :=
  match dictGet json "signatures" with
  | none => true
  | some (.obj sigUsers) =>
    match dictGet sigUsers user_id with
    | none => true
    | some (.obj userSigs) =>
      match dictGet userSigs ("ed25519:" ++ device_id) with
      | none => true
      | some (.str _) => true
      | some _ => false
    | some _ => false
  | some _ => false

/-- Restoring the popped `signatures` at the end of the dict leaves every
lookup as in the original payload. -/
theorem verify_restored_frame (json : JObj) (sigs : JVal)
    (hsig : dictGet json "signatures" = some sigs) :
    (∀ k, k ≠ "unsigned" →
      dictGet (eraseKey "signatures" json ++ [("signatures", sigs)]) k =
        dictGet json k) ∧
    dictGet (eraseKey "signatures" json ++ [("signatures", sigs)]) "unsigned" =
      dictGet json "unsigned" := by
  constructor
  · intro k hku
    by_cases hks : k = "signatures"
    · subst hks
      rw [dictGet_append_singleton_pos, dictGet_eraseKey_self, hsig]
      rfl
    · rw [dictGet_append_singleton_ne _ _ _ k hks, dictGet_eraseKey_ne _ hks]
  · rw [dictGet_append_singleton_ne _ _ _ "unsigned" (by decide),
      dictGet_eraseKey_ne _ (by decide)]

/-- Full characterization of `verify_json` under the shape precondition:
it returns a boolean and the payload with `signatures` restored and a truthy
`unsigned` restored, failing paths return `false`, and the success path
returns the engine's verdict on the canonical serialization. -/
theorem verify_json_characterization (verifyFn : String → String → String → Bool)
    (json : JObj) (ukey uid did : String)
    (hv : verifyShapeOk json uid did = true) :
    ∃ b out, verify_json verifyFn json ukey uid did = .ok (b, out) ∧
      (∀ k, k ≠ "unsigned" → dictGet out k = dictGet json k) ∧
      (dictGet out "unsigned" =
        if hasSigEntry json uid did then (dictGet json "unsigned").filter truthy
        else dictGet json "unsigned") ∧
      (hasSigEntry json uid did = false → b = false) ∧
      (dictGet json "signatures" = none → out = json) ∧
      (∀ s, sigEntry json uid did = some (.str s) →
        b = verifyFn ukey (signingInput json) s) := by
  rcases hsig : dictGet json "signatures" with _ | sigs
  · have hfe : hasSigEntry json uid did = false := by
      simp [hasSigEntry, sigEntry, hsig]
    refine ⟨false, json, ?_, fun k _ => rfl, ?_, fun _ => rfl, fun _ => rfl, ?_⟩
    · simp only [verify_json, hsig]
    · rw [hfe]
      simp
    · intro s hsE
      rw [sigEntry, hsig] at hsE
      cases hsE
  · cases sigs with
    | obj sigUsers =>
      have hv' : (match dictGet sigUsers uid with
          | none => true
          | some (.obj userSigs) =>
            match dictGet userSigs ("ed25519:" ++ did) with
            | none => true
            | some (.str _) => true
            | some _ => false
          | some _ => false) = true := by
        rw [verifyShapeOk, hsig] at hv
        exact hv
      obtain ⟨hframe, hun⟩ := verify_restored_frame json (.obj sigUsers) hsig
      rcases huser : dictGet sigUsers uid with _ | uv
      · have hfe : hasSigEntry json uid did = false := by
          simp [hasSigEntry, sigEntry, hsig, huser]
        refine ⟨false, _, ?_, hframe, ?_, fun _ => rfl, ?_, ?_⟩
        · simp only [verify_json, hsig, huser]
        · rw [hfe]
          simpa using hun
        · intro h
          exact Option.noConfusion h
        · intro s hsE
          have h2 : (match dictGet sigUsers uid with
              | some (.obj userSigs) => dictGet userSigs ("ed25519:" ++ did)
              | _ => none) = some (JVal.str s) := by
            rw [sigEntry, hsig] at hsE
            exact hsE
          rw [huser] at h2
          exact Option.noConfusion h2
      · rw [huser] at hv'
        cases uv with
        | obj userSigs =>
          have hv2 : (match dictGet userSigs ("ed25519:" ++ did) with
              | none => true
              | some (.str _) => true
              | some _ => false) = true := hv'
          rcases hkey : dictGet userSigs ("ed25519:" ++ did) with _ | sv
          · have hfe : hasSigEntry json uid did = false := by
              simp [hasSigEntry, sigEntry, hsig, huser, hkey]
            refine ⟨false, _, ?_, hframe, ?_, fun _ => rfl, ?_, ?_⟩
            · simp only [verify_json, hsig, huser, hkey]
            · rw [hfe]
              simpa using hun
            · intro h
              exact Option.noConfusion h
            · intro s hsE
              have h2 : (match dictGet sigUsers uid with
                  | some (.obj userSigs) => dictGet userSigs ("ed25519:" ++ did)
                  | _ => none) = some (JVal.str s) := by
                rw [sigEntry, hsig] at hsE
                exact hsE
              rw [huser] at h2
              have h3 : dictGet userSigs ("ed25519:" ++ did) =
                  some (JVal.str s) := h2
              rw [hkey] at h3
              exact Option.noConfusion h3
          · rw [hkey] at hv2
            cases sv with
            | str s0 =>
              have hfe : hasSigEntry json uid did = true := by
                simp [hasSigEntry, sigEntry, hsig, huser, hkey]
              obtain ⟨hframe2, hun2, hsig2⟩ :=
                sign_out_props json (JVal.obj sigUsers)
              refine ⟨verifyFn ukey (signingInput json) s0,
                (match dictGet (eraseKey "signatures" json) "unsigned" with
                  | some u =>
                    if truthy u then
                      (eraseKey "unsigned" (eraseKey "signatures" json) ++
                        [("signatures", JVal.obj sigUsers)]) ++ [("unsigned", u)]
                    else eraseKey "unsigned" (eraseKey "signatures" json) ++
                      [("signatures", JVal.obj sigUsers)]
                  | none => eraseKey "unsigned" (eraseKey "signatures" json) ++
                      [("signatures", JVal.obj sigUsers)]),
                ?_, ?_, ?_, ?_, ?_, ?_⟩
              · simp only [verify_json, hsig, huser, hkey, popKey, signingInput]
              · intro k hku
                by_cases hks : k = "signatures"
                · subst hks
                  rw [hsig2, hsig]
                · exact hframe2 k hks hku
              · rw [hfe, if_pos rfl]
                exact hun2
              · intro h
                rw [hfe] at h
                cases h
              · intro h
                exact Option.noConfusion h
              · intro s hsE
                have h2 : (match dictGet sigUsers uid with
                    | some (.obj userSigs) => dictGet userSigs ("ed25519:" ++ did)
                    | _ => none) = some (JVal.str s) := by
                  rw [sigEntry, hsig] at hsE
                  exact hsE
                have h3 : dictGet userSigs ("ed25519:" ++ did) =
                    some (JVal.str s) := by
                  rw [huser] at h2
                  exact h2
                rw [hkey] at h3
                have h4 : s0 = s := by
                  simpa using h3
                subst h4
                rfl
            | null => simp at hv2
            | bool b => simp at hv2
            | num n => simp at hv2
            | arr xs => simp at hv2
            | obj fs => simp at hv2
        | null => simp at hv'
        | bool b => simp at hv'
        | num n => simp at hv'
        | str s => simp at hv'
        | arr xs => simp at hv'
    | null => simp [verifyShapeOk, hsig] at hv
    | bool b => simp [verifyShapeOk, hsig] at hv
    | num n => simp [verifyShapeOk, hsig] at hv
    | str s => simp [verifyShapeOk, hsig] at hv
    | arr xs => simp [verifyShapeOk, hsig] at hv


/-- Claim C3, amended: `sign_json` removes `signatures` and `unsigned`
before canonical serialization, then reinserts the updated `signatures` and
reinserts `unsigned` only if it existed **and is truthy** (a falsy
`unsigned`, e.g. an empty object, is dropped), leaving every other field
unchanged; `verify_json` likewise restores `signatures` unconditionally and
`unsigned` only when truthy, regardless of the verification outcome. -/
theorem sign_verify_json_frame_amended (signFn : String → String)
    (verifyFn : String → String → String → Bool) (ukey uid did : String)
    (json : JObj) (hs : signShapeOk json uid = true)
    (hv : verifyShapeOk json uid did = true) :
    (∃ out, sign_json signFn uid did json = some out ∧
      (∀ k, k ≠ "signatures" → k ≠ "unsigned" → dictGet out k = dictGet json k) ∧
      dictGet out "unsigned" = (dictGet json "unsigned").filter truthy ∧
      (∃ su us, dictGet out "signatures" = some (JVal.obj su) ∧
        dictGet su uid = some (JVal.obj us) ∧
        dictGet us ("ed25519:" ++ did) =
          some (JVal.str (signFn (signingInput json))))) ∧
    (∃ b out, verify_json verifyFn json ukey uid did = .ok (b, out) ∧
      (∀ k, k ≠ "unsigned" → dictGet out k = dictGet json k) ∧
      dictGet out "unsigned" =
        (if hasSigEntry json uid did then (dictGet json "unsigned").filter truthy
         else dictGet json "unsigned")) := by
  constructor
  · exact sign_json_spec signFn uid did json hs
  · obtain ⟨b, out, h1, h2, h3, _, _, _⟩ :=
      verify_json_characterization verifyFn json ukey uid did hv
    exact ⟨b, out, h1, h2, h3⟩

/-- Claim C3, counterexample: a payload whose `unsigned` field exists but is
falsy (the empty object).  `sign_json` succeeds yet the returned payload has
no `unsigned` field, so "if it existed, reinserts unsigned unchanged" fails
(`if unsigned:` is a truthiness test, not an existence test). -/
theorem sign_json_unsigned_counterexample :
    dictGet [("a", JVal.str "x"), ("unsigned", JVal.obj [])] "unsigned" =
      some (JVal.obj []) ∧
    (∃ out, sign_json (fun _ => "SIG") "@u" "DEV"
        [("a", JVal.str "x"), ("unsigned", JVal.obj [])] = some out ∧
      dictGet out "unsigned" = none) :=
  ⟨rfl, ⟨_, rfl, rfl⟩⟩

/-- A payload with content, a foreign signature and a truthy `unsigned`. -/
def jsonC3 : JObj :=
  [("key", JVal.str "KEYDATA"),
   ("signatures", JVal.obj [("@other:hs", JVal.obj [("ed25519:OTH", JVal.str "osig")])]),
   ("unsigned", JVal.obj [("age", JVal.num 5)])]

/-- Claim C3, witness: the amended theorem applied to a concrete payload
with an existing foreign signature and a truthy `unsigned` field. -/
theorem sign_verify_json_frame_witness :
    signShapeOk jsonC3 "@alice:hs" = true ∧
    verifyShapeOk jsonC3 "@alice:hs" "DEV" = true ∧
    ((∃ out, sign_json (fun _ => "SIG") "@alice:hs" "DEV" jsonC3 = some out ∧
      (∀ k, k ≠ "signatures" → k ≠ "unsigned" →
        dictGet out k = dictGet jsonC3 k) ∧
      dictGet out "unsigned" = (dictGet jsonC3 "unsigned").filter truthy ∧
      (∃ su us, dictGet out "signatures" = some (JVal.obj su) ∧
        dictGet su "@alice:hs" = some (JVal.obj us) ∧
        dictGet us ("ed25519:" ++ "DEV") =
          some (JVal.str ((fun _ => "SIG") (signingInput jsonC3))))) ∧
    (∃ b out, verify_json (fun _ _ _ => true) jsonC3 "KEY" "@alice:hs" "DEV" =
        .ok (b, out) ∧
      (∀ k, k ≠ "unsigned" → dictGet out k = dictGet jsonC3 k) ∧
      dictGet out "unsigned" =
        (if hasSigEntry jsonC3 "@alice:hs" "DEV" then
          (dictGet jsonC3 "unsigned").filter truthy
         else dictGet jsonC3 "unsigned"))) :=
  ⟨rfl, rfl, sign_verify_json_frame_amended (fun _ => "SIG") (fun _ _ _ => true)
    "KEY" "@alice:hs" "DEV" jsonC3 rfl rfl⟩

/-- Claim C4, amended: for payloads whose `signatures` field (when present)
is an object of objects with string signature values, `verify_json` never
raises: a missing `signatures` field yields `false` with the payload
untouched, a missing entry for the user and device yields `false` with the
extracted `signatures` restored, and a cryptographically invalid signature
yields `false` rather than an exception. -/
theorem verify_json_failure_amended (verifyFn : String → String → String → Bool)
    (ukey uid did : String) (json : JObj)
    (hv : verifyShapeOk json uid did = true) :
    (∃ r, verify_json verifyFn json ukey uid did = .ok r) ∧
    (dictGet json "signatures" = none →
      verify_json verifyFn json ukey uid did = .ok (false, json)) ∧
    (hasSigEntry json uid did = false →
      ∃ out, verify_json verifyFn json ukey uid did = .ok (false, out) ∧
        dictGet out "signatures" = dictGet json "signatures" ∧
        (∀ k, k ≠ "unsigned" → dictGet out k = dictGet json k)) ∧
    (∀ s, sigEntry json uid did = some (.str s) →
      verifyFn ukey (signingInput json) s = false →
      ∃ out, verify_json verifyFn json ukey uid did = .ok (false, out)) := by
  obtain ⟨b, out, h1, h2, h3, h4, h5, h6⟩ :=
    verify_json_characterization verifyFn json ukey uid did hv
  refine ⟨⟨(b, out), h1⟩, ?_, ?_, ?_⟩
  · intro h
    have hfe : hasSigEntry json uid did = false := by
      simp [hasSigEntry, sigEntry, h]
    rw [h5 h] at h1
    rw [h4 hfe] at h1
    exact h1
  · intro hfe
    rw [h4 hfe] at h1
    exact ⟨out, h1, h2 "signatures" (by decide), h2⟩
  · intro s hsE hb
    rw [h6 s hsE, hb] at h1
    exact ⟨out, h1⟩

/-- Claim C4, counterexample: a payload whose `signatures` field is a string
makes `verify_json` raise (`"oops"[user_id]` is a `TypeError`, which the
`except KeyError` does not catch) instead of returning `false`. -/
theorem verify_json_error_counterexample :
    dictGet [("signatures", JVal.str "oops")] "signatures" =
      some (JVal.str "oops") ∧
    verify_json (fun _ _ _ => true) [("signatures", JVal.str "oops")]
      "KEY" "@u" "DEV" = .error () :=
  ⟨rfl, rfl⟩

/-- A payload carrying a signature entry for the queried user and device. -/
def jsonC4 : JObj :=
  [("key", JVal.str "K"),
   ("signatures", JVal.obj [("@alice:hs",
      JVal.obj [("ed25519:DEV", JVal.str "SIG")])])]

/-- Claim C4, witness: the amended theorem applied to a payload carrying a
concrete signature entry, with an engine that rejects every signature. -/
theorem verify_json_failure_witness :
    verifyShapeOk jsonC4 "@alice:hs" "DEV" = true ∧
    ((∃ r, verify_json (fun _ _ _ => false) jsonC4 "KEY" "@alice:hs" "DEV" =
        .ok r) ∧
    (dictGet jsonC4 "signatures" = none →
      verify_json (fun _ _ _ => false) jsonC4 "KEY" "@alice:hs" "DEV" =
        .ok (false, jsonC4)) ∧
    (hasSigEntry jsonC4 "@alice:hs" "DEV" = false →
      ∃ out, verify_json (fun _ _ _ => false) jsonC4 "KEY" "@alice:hs" "DEV" =
          .ok (false, out) ∧
        dictGet out "signatures" = dictGet jsonC4 "signatures" ∧
        (∀ k, k ≠ "unsigned" → dictGet out k = dictGet jsonC4 k)) ∧
    (∀ s, sigEntry jsonC4 "@alice:hs" "DEV" = some (.str s) →
      (fun _ _ _ => false : String → String → String → Bool) "KEY"
        (signingInput jsonC4) s = false →
      ∃ out, verify_json (fun _ _ _ => false) jsonC4 "KEY" "@alice:hs" "DEV" =
        .ok (false, out))) :=
  ⟨rfl, verify_json_failure_amended (fun _ _ _ => false) "KEY" "@alice:hs"
    "DEV" jsonC4 rfl⟩



/-- `dict.get(k, 0)` is dict lookup with default 0. -/
theorem lookupCnt_eq_dictGet (l : List (String × Nat)) (k : String) :
    lookupCnt l k = (dictGet l k).getD 0 := rfl

/-- One step of the `keys_uploaded` loop. -/
theorem computeKeysUploaded_cons (p : String × Nat)
    (ps counts : List (String × Nat)) :
    computeKeysUploaded (p :: ps) counts =
      if p.2 - lookupCnt counts p.1 = 0 then computeKeysUploaded ps counts
      else (p.1, p.2 - lookupCnt counts p.1) :: computeKeysUploaded ps counts := by
  by_cases h : p.2 - lookupCnt counts p.1 = 0 <;>
    simp [computeKeysUploaded, List.filterMap_cons, h]

/-- Every flavor in `keys_uploaded` is one of the target flavors. -/
theorem computeKeysUploaded_mem_keys (targets counts : List (String × Nat)) :
    ∀ q ∈ computeKeysUploaded targets counts, q.1 ∈ targets.map Prod.fst := by
  induction targets with
  | nil => intro q hq; cases hq
  | cons p ps ih =>
    intro q hq
    rw [computeKeysUploaded_cons] at hq
    by_cases h : p.2 - lookupCnt counts p.1 = 0
    · rw [if_pos h] at hq
      exact List.mem_cons_of_mem _ (ih q hq)
    · rw [if_neg h] at hq
      rcases List.mem_cons.mp hq with heq | hmem
      · cases heq
        exact List.mem_cons_self _ _
      · exact List.mem_cons_of_mem _ (ih q hmem)

/-- Every entry of `keys_uploaded` is positive: zero counts are skipped. -/
theorem computeKeysUploaded_pos (targets counts : List (String × Nat)) :
    ∀ q ∈ computeKeysUploaded targets counts, 0 < q.2 := by
  induction targets with
  | nil => intro q hq; cases hq
  | cons p ps ih =>
    intro q hq
    rw [computeKeysUploaded_cons] at hq
    by_cases h : p.2 - lookupCnt counts p.1 = 0
    · rw [if_pos h] at hq
      exact ih q hq
    · rw [if_neg h] at hq
      rcases List.mem_cons.mp hq with heq | hmem
      · cases heq
        omega
      · exact ih q hmem

/-- Per-flavor characterization of `keys_uploaded`: for a target flavor its
count reads as `target - known` (Nat subtraction), and the flavor is absent
exactly when nothing is to be created. -/
theorem computeKeysUploaded_lookup (targets counts : List (String × Nat))
    (hnd : (targets.map Prod.fst).Nodup) (kt : String) (tgt : Nat)
    (hmem : (kt, tgt) ∈ targets) :
    lookupCnt (computeKeysUploaded targets counts) kt =
      tgt - lookupCnt counts kt ∧
    ((computeKeysUploaded targets counts).find? (fun q => q.1 == kt) = none ↔
      tgt - lookupCnt counts kt = 0) := by
  induction targets with
  | nil => cases hmem
  | cons p ps ih =>
    rw [List.map_cons, List.nodup_cons] at hnd
    rw [computeKeysUploaded_cons]
    rcases List.mem_cons.mp hmem with heq | hmem'
    · cases heq
      have hnone : (computeKeysUploaded ps counts).find?
          (fun q => q.1 == kt) = none := by
        apply List.find?_eq_none.mpr
        intro q hq hbeq
        exact hnd.1 (by
          have hmk := computeKeysUploaded_mem_keys ps counts q hq
          rwa [show q.1 = kt by simpa using hbeq] at hmk)
      by_cases h : tgt - lookupCnt counts kt = 0
      · rw [if_pos h]
        refine ⟨?_, by simp [hnone, h]⟩
        rw [lookupCnt_eq_dictGet, dictGet, hnone]
        show 0 = tgt - lookupCnt counts kt
        omega
      · rw [if_neg h]
        constructor
        · rw [lookupCnt_eq_dictGet, dictGet_cons_pos _ _ _ (by simp)]
          rfl
        · rw [List.find?_cons_of_pos _ (by simp)]
          simp [h]
    · have hne : p.1 ≠ kt := by
        intro hcontra
        exact hnd.1 (hcontra ▸ List.mem_map_of_mem Prod.fst hmem')
      have ihr := ih hnd.2 hmem'
      by_cases h : p.2 - lookupCnt counts p.1 = 0
      · rw [if_pos h]
        exact ihr
      · rw [if_neg h]
        constructor
        · rw [lookupCnt_eq_dictGet,
            dictGet_cons_neg _ _ _ (by simp [hne]), ← lookupCnt_eq_dictGet]
          exact ihr.1
        · rw [List.find?_cons_of_neg _ (by simp [hne])]
          exact ihr.2


/-- `sign_json` on the one-time-key payload `{'key': k}`: no `signatures` or
`unsigned` to pop, so it signs the canonical encoding and adds the entry. -/
theorem sign_json_key (signFn : String → String) (uid did k : String) :
    sign_json signFn uid did [("key", JVal.str k)] =
      some [("key", JVal.str k),
        ("signatures", JVal.obj [(uid, JVal.obj [("ed25519:" ++ did,
          JVal.str (signFn (signingInput [("key", JVal.str k)])))])])] := rfl

/-- The total number of keys to create is zero exactly when no flavor needs
any. -/
theorem computeKeysUploaded_sum_zero_iff (targets counts : List (String × Nat)) :
    ((computeKeysUploaded targets counts).map (·.2)).sum = 0 ↔
      computeKeysUploaded targets counts = [] := by
  cases hku : computeKeysUploaded targets counts with
  | nil => simp
  | cons q qs =>
    simp only [List.map_cons, List.sum_cons]
    constructor
    · intro h
      have hpos := computeKeysUploaded_pos targets counts q
        (by rw [hku]; exact List.mem_cons_self q qs)
      omega
    · intro h
      cases h

/-- Claim C1: with known (non-empty) server counts and no pending engine
keys, `upload_one_time_keys` computes `to_create = max(target - known, 0)`
per flavor, asks the engine for exactly the sum of `to_create` in a single
generation call, publishes the first `to_create[signed]` newly generated
keys as the signed flavor (each individually signed via `sign_json`) and the
remainder as the unsigned flavor as-is, and returns per flavor the number of
keys uploaded, omitting zero flavors, so an empty result means the published
key set was empty. -/
theorem upload_one_time_keys_spec (signFn : String → String) (uid did : String)
    (targets counts : List (String × Nat))
    (generated : Nat → List (String × String))
    (queryResp : List (String × Nat)) (publishResp : JObj → List (String × Nat))
    (hc : counts ≠ []) (hnd : (targets.map Prod.fst).Nodup)
    (hgen : ∀ n, (generated n).length = n) :
    ∃ otks,
      (upload_one_time_keys signFn uid did targets counts false [] generated
          queryResp publishResp).keys_uploaded =
        computeKeysUploaded targets counts ∧
      (upload_one_time_keys signFn uid did targets counts false [] generated
          queryResp publishResp).events =
        [.generate (((computeKeysUploaded targets counts).map (·.2)).sum),
         .publish otks, .markPublished] ∧
      (∀ kt tgt, (kt, tgt) ∈ targets →
        ((lookupCnt (computeKeysUploaded targets counts) kt : ℤ) =
            max ((tgt : ℤ) - (lookupCnt counts kt : ℤ)) 0 ∧
          ((computeKeysUploaded targets counts).find? (fun q => q.1 == kt) =
              none ↔ tgt ≤ lookupCnt counts kt))) ∧
      otks.length = ((computeKeysUploaded targets counts).map (·.2)).sum ∧
      (∀ i kid k,
        (generated (((computeKeysUploaded targets counts).map (·.2)).sum))[i]? =
          some (kid, k) →
        (i < lookupCnt (computeKeysUploaded targets counts) "signed_curve25519" →
          ∃ sk, sign_json signFn uid did [("key", JVal.str k)] = some sk ∧
            otks[i]? = some ("signed_curve25519:" ++ kid, JVal.obj sk)) ∧
        (lookupCnt (computeKeysUploaded targets counts) "signed_curve25519" ≤ i →
          otks[i]? = some ("curve25519:" ++ kid, JVal.str k))) ∧
      (computeKeysUploaded targets counts = [] ↔ otks = []) := by
  have hie : counts.isEmpty = false := by
    cases counts
    · cases hc rfl
    · rfl
  refine ⟨((generated (((computeKeysUploaded targets counts).map (·.2)).sum)).enum.map
    (fun p => if p.1 < lookupCnt (computeKeysUploaded targets counts)
        "signed_curve25519" then
      ("signed_curve25519:" ++ p.2.1, JVal.obj ((sign_json signFn uid did
        [("key", JVal.str p.2.2)]).getD []))
    else ("curve25519:" ++ p.2.1, JVal.str p.2.2))), ?_, ?_, ?_, ?_, ?_, ?_⟩
  · simp only [upload_one_time_keys, hie, Bool.false_or, Bool.false_eq_true, if_false]
  · simp only [upload_one_time_keys, hie, Bool.false_or, Bool.false_eq_true,
      if_false, List.nil_append]
  · intro kt tgt hmem
    obtain ⟨h1, h2⟩ := computeKeysUploaded_lookup targets counts hnd kt tgt hmem
    constructor
    · rw [h1]
      omega
    · rw [h2]
      omega
  · simp only [upload_one_time_keys, hie, Bool.false_or, Bool.false_eq_true,
      if_false, List.nil_append, List.length_map, List.enum_length]
    exact hgen _
  · intro i kid k hik
    constructor
    · intro hlt
      refine ⟨_, sign_json_key signFn uid did k, ?_⟩
      simp [hik, List.getElem?_map, List.getElem?_enum, hlt, sign_json_key]
    · intro hge
      simp [hik, List.getElem?_map, List.getElem?_enum, Nat.not_lt.mpr hge]
  · constructor
    · intro h
      have hlen : (((computeKeysUploaded targets counts).map (·.2)).sum) = 0 := by
        rw [h]
        rfl
      apply List.length_eq_zero.mp
      simp only [List.length_map, List.enum_length]
      rw [hgen _, hlen]
    · intro h
      apply (computeKeysUploaded_sum_zero_iff targets counts).mp
      have hlen := congrArg List.length h
      simp only [List.length_map, List.enum_length, List.length_nil] at hlen
      rw [hgen _] at hlen
      exact hlen

/-- Claim C10: when every flavor's known count is at least its target (and
counts are known, with no pending engine keys), `upload_one_time_keys`
returns the empty map, yet still asks the engine to generate zero keys,
still performs exactly one publication transport call with an empty key set,
still marks keys as published, and overwrites the stored counts with the
counts returned by that call. -/
theorem upload_one_time_keys_noop (signFn : String → String) (uid did : String)
    (targets counts : List (String × Nat))
    (generated : Nat → List (String × String))
    (queryResp : List (String × Nat)) (publishResp : JObj → List (String × Nat))
    (hc : counts ≠ [])
    (hsat : ∀ p ∈ targets, p.2 ≤ lookupCnt counts p.1)
    (hgen : generated 0 = []) :
    upload_one_time_keys signFn uid did targets counts false [] generated
        queryResp publishResp =
      { keys_uploaded := []
        events := [.generate 0, .publish [], .markPublished]
        one_time_key_counts := publishResp []
        pending := [] } := by
  have hie : counts.isEmpty = false := by
    cases counts
    · cases hc rfl
    · rfl
  have hku : computeKeysUploaded targets counts = [] := by
    rw [computeKeysUploaded]
    apply List.filterMap_eq_nil_iff.mpr
    intro p hp
    have h := hsat p hp
    simp only [if_pos (by omega : p.2 - lookupCnt counts p.1 = 0)]
  simp only [upload_one_time_keys, hie, Bool.false_or, Bool.false_eq_true,
    if_false, hku, List.map_nil, List.sum_nil, hgen, List.nil_append,
    List.enum_nil]


/-- Claim C1, witness: the theorem applied to targets 3 signed / 2 unsigned
with one signed key already on the server and a concrete key generator. -/
theorem upload_one_time_keys_spec_witness :
    ([("signed_curve25519", (1 : Nat))] ≠ []) ∧
    ((([("signed_curve25519", 3), ("curve25519", 2)] :
        List (String × Nat)).map Prod.fst).Nodup) ∧
    (∀ n, ((fun n => (List.range n).map
      (fun i => ("ID" ++ toString i, "K" ++ toString i))) n).length = n) ∧
    ∃ otks,
      (upload_one_time_keys (fun _ => "SIG") "@a:hs" "DEV"
          [("signed_curve25519", 3), ("curve25519", 2)]
          [("signed_curve25519", 1)] false []
          (fun n => (List.range n).map
            (fun i => ("ID" ++ toString i, "K" ++ toString i)))
          [] (fun _ => [])).keys_uploaded =
        computeKeysUploaded [("signed_curve25519", 3), ("curve25519", 2)]
          [("signed_curve25519", 1)] ∧
      (upload_one_time_keys (fun _ => "SIG") "@a:hs" "DEV"
          [("signed_curve25519", 3), ("curve25519", 2)]
          [("signed_curve25519", 1)] false []
          (fun n => (List.range n).map
            (fun i => ("ID" ++ toString i, "K" ++ toString i)))
          [] (fun _ => [])).events =
        [.generate (((computeKeysUploaded
            [("signed_curve25519", 3), ("curve25519", 2)]
            [("signed_curve25519", 1)]).map (·.2)).sum),
         .publish otks, .markPublished] ∧
      (∀ (kt : String) (tgt : Nat),
        (kt, tgt) ∈ ([("signed_curve25519", 3), ("curve25519", 2)] :
          List (String × Nat)) →
        ((lookupCnt (computeKeysUploaded
              [("signed_curve25519", 3), ("curve25519", 2)]
              [("signed_curve25519", 1)]) kt : ℤ) =
            max ((tgt : ℤ) -
              (lookupCnt [("signed_curve25519", 1)] kt : ℤ)) 0 ∧
          ((computeKeysUploaded [("signed_curve25519", 3), ("curve25519", 2)]
              [("signed_curve25519", 1)]).find? (fun q => q.1 == kt) =
              none ↔ tgt ≤ lookupCnt [("signed_curve25519", 1)] kt))) ∧
      otks.length = ((computeKeysUploaded
          [("signed_curve25519", 3), ("curve25519", 2)]
          [("signed_curve25519", 1)]).map (·.2)).sum ∧
      (∀ i kid k,
        (((fun n => (List.range n).map
            (fun i => ("ID" ++ toString i, "K" ++ toString i)))
          (((computeKeysUploaded [("signed_curve25519", 3), ("curve25519", 2)]
            [("signed_curve25519", 1)]).map (·.2)).sum)))[i]? =
          some (kid, k) →
        (i < lookupCnt (computeKeysUploaded
            [("signed_curve25519", 3), ("curve25519", 2)]
            [("signed_curve25519", 1)]) "signed_curve25519" →
          ∃ sk, sign_json (fun _ => "SIG") "@a:hs" "DEV"
              [("key", JVal.str k)] = some sk ∧
            otks[i]? = some ("signed_curve25519:" ++ kid, JVal.obj sk)) ∧
        (lookupCnt (computeKeysUploaded
            [("signed_curve25519", 3), ("curve25519", 2)]
            [("signed_curve25519", 1)]) "signed_curve25519" ≤ i →
          otks[i]? = some ("curve25519:" ++ kid, JVal.str k))) ∧
      (computeKeysUploaded [("signed_curve25519", 3), ("curve25519", 2)]
          [("signed_curve25519", 1)] = [] ↔ otks = []) :=
  ⟨by decide, by decide, by intro n; simp,
    upload_one_time_keys_spec (fun _ => "SIG") "@a:hs" "DEV"
      [("signed_curve25519", 3), ("curve25519", 2)] [("signed_curve25519", 1)]
      (fun n => (List.range n).map
        (fun i => ("ID" ++ toString i, "K" ++ toString i)))
      [] (fun _ => []) (by decide) (by decide) (by intro n; simp)⟩

/-- Claim C10, witness: the theorem applied to a state where both flavors
meet their targets. -/
theorem upload_one_time_keys_noop_witness :
    ([("signed_curve25519", (5 : Nat)), ("curve25519", 2)] ≠ []) ∧
    (∀ p ∈ ([("signed_curve25519", 3), ("curve25519", 2)] :
        List (String × Nat)),
      p.2 ≤ lookupCnt [("signed_curve25519", 5), ("curve25519", 2)] p.1) ∧
    ((fun n => (List.range n).map
      (fun i => ("ID" ++ toString i, "K" ++ toString i))) 0 = []) ∧
    upload_one_time_keys (fun _ => "SIG") "@a:hs" "DEV"
        [("signed_curve25519", 3), ("curve25519", 2)]
        [("signed_curve25519", 5), ("curve25519", 2)] false []
        (fun n => (List.range n).map
          (fun i => ("ID" ++ toString i, "K" ++ toString i)))
        [] (fun _ => []) =
      { keys_uploaded := []
        events := [.generate 0, .publish [], .markPublished]
        one_time_key_counts := []
        pending := [] } :=
  ⟨by decide, by decide, rfl,
    upload_one_time_keys_noop (fun _ => "SIG") "@a:hs" "DEV"
      [("signed_curve25519", 3), ("curve25519", 2)]
      [("signed_curve25519", 5), ("curve25519", 2)]
      (fun n => (List.range n).map
        (fun i => ("ID" ++ toString i, "K" ++ toString i)))
      [] (fun _ => []) (by decide) (by decide) rfl⟩



/-- Field encoding is a map over the fields. -/
theorem encodeFields_eq_map (fs : List (String × JVal)) :
    encodeFields fs = fs.map (fun p => (p.1, encodeCanonical p.2)) := by
  induction fs with
  | nil => rfl
  | cons p ps ih =>
    cases p
    rw [encodeFields, ih, List.map_cons]

/-- Sorting by key is insensitive to the input order when keys are distinct:
the canonical field order is unique. -/
theorem sortPairs_eq_of_perm (l1 l2 : List (String × String)) (h : l1.Perm l2)
    (hnd : (l1.map Prod.fst).Nodup) : sortPairs l1 = sortPairs l2 := by
  haveI hto : IsTotal (String × String) (fun a b => a.1 ≤ b.1) :=
    ⟨fun a b => le_total a.1 b.1⟩
  haveI htr : IsTrans (String × String) (fun a b => a.1 ≤ b.1) :=
    ⟨fun a b c h1 h2 => le_trans h1 h2⟩
  haveI han : IsAntisymm (String × String) (fun a b => a.1 < b.1) :=
    ⟨fun a b h1 h2 => (lt_asymm h1 h2).elim⟩
  have hperm : (sortPairs l1).Perm (sortPairs l2) :=
    (List.perm_insertionSort _ l1).trans
      (h.trans (List.perm_insertionSort _ l2).symm)
  have hnd2 : (l2.map Prod.fst).Nodup := ((h.map Prod.fst).nodup_iff).mp hnd
  have hnds1 : ((sortPairs l1).map Prod.fst).Nodup :=
    (((List.perm_insertionSort _ l1).map Prod.fst).nodup_iff).mpr hnd
  have hnds2 : ((sortPairs l2).map Prod.fst).Nodup :=
    (((List.perm_insertionSort _ l2).map Prod.fst).nodup_iff).mpr hnd2
  have hlt1 : List.Sorted (fun a b : String × String => a.1 < b.1)
      (sortPairs l1) := by
    have hle := List.sorted_insertionSort (fun a b : String × String => a.1 ≤ b.1) l1
    have hne : (sortPairs l1).Pairwise (fun a b => a.1 ≠ b.1) :=
      List.pairwise_map.mp hnds1
    exact (hle.and hne).imp (fun hp => lt_of_le_of_ne hp.1 hp.2)
  have hlt2 : List.Sorted (fun a b : String × String => a.1 < b.1)
      (sortPairs l2) := by
    have hle := List.sorted_insertionSort (fun a b : String × String => a.1 ≤ b.1) l2
    have hne : (sortPairs l2).Pairwise (fun a b => a.1 ≠ b.1) :=
      List.pairwise_map.mp hnds2
    exact (hle.and hne).imp (fun hp => lt_of_le_of_ne hp.1 hp.2)
  exact List.eq_of_perm_of_sorted hperm hlt1 hlt2

/-- Canonical encoding of an object depends only on its fields as a map, not
on their insertion order. -/
theorem encodeCanonical_obj_congr (fs1 fs2 : List (String × JVal))
    (h : fs1.Perm fs2) (hnd : (fs1.map Prod.fst).Nodup) :
    encodeCanonical (.obj fs1) = encodeCanonical (.obj fs2) := by
  have hkey : sortPairs (encodeFields fs1) = sortPairs (encodeFields fs2) := by
    apply sortPairs_eq_of_perm
    · rw [encodeFields_eq_map, encodeFields_eq_map]
      exact h.map _
    · rw [encodeFields_eq_map, List.map_map]
      exact hnd
  rw [encodeCanonical, encodeCanonical, hkey]

/-- Popping a key preserves distinctness of the remaining keys. -/
theorem eraseKey_nodupKeys (l : JObj) (k : String)
    (hnd : (l.map Prod.fst).Nodup) :
    ((eraseKey k l).map Prod.fst).Nodup :=
  ((List.filter_sublist l).map Prod.fst).nodup hnd

/-- The canonical signing input is insensitive to field insertion order. -/
theorem signingInput_perm (l1 l2 : JObj) (h : l1.Perm l2)
    (hnd : (l1.map Prod.fst).Nodup) : signingInput l1 = signingInput l2 := by
  rw [signingInput, signingInput]
  apply encodeCanonical_obj_congr
  · exact (h.filter _).filter _
  · exact eraseKey_nodupKeys _ _ (eraseKey_nodupKeys _ _ hnd)

/-- Dict lookup is insensitive to field insertion order when keys are
distinct. -/
theorem dictGet_perm (l1 l2 : List (String × JVal)) (h : l1.Perm l2)
    (hnd : (l1.map Prod.fst).Nodup) (k : String) :
    dictGet l1 k = dictGet l2 k := by
  cases h1 : dictGet l1 k with
  | none =>
    rw [dictGet] at h1 ⊢
    rw [eq_comm]
    cases h2 : (l2.find? (fun p => p.1 == k)) with
    | none => rfl
    | some b =>
      have hb2 : b ∈ l2 := List.mem_of_find?_eq_some h2
      have hbp := List.find?_some h2
      have hb1 : b ∈ l1 := h.symm.subset hb2
      have hn1 : l1.find? (fun p => p.1 == k) = none := by
        cases hf : l1.find? (fun p => p.1 == k) with
        | none => rfl
        | some a => rw [hf] at h1; cases h1
      exact absurd hbp (by simpa using List.find?_eq_none.mp hn1 b hb1)
  | some v =>
    rw [dictGet] at h1
    cases hf : l1.find? (fun p => p.1 == k) with
    | none => rw [hf] at h1; cases h1
    | some a =>
      rw [hf] at h1
      have hav : a.2 = v := by cases h1; rfl
      have ha1 : a ∈ l1 := List.mem_of_find?_eq_some hf
      have hap := List.find?_some hf
      have ha2 : a ∈ l2 := h.subset ha1
      have hsome : (l2.find? (fun p => p.1 == k)).isSome := by
        rw [List.find?_isSome]
        exact ⟨a, ha2, hap⟩
      cases h2 : l2.find? (fun p => p.1 == k) with
      | none => rw [h2] at hsome; cases hsome
      | some b =>
        have hb2 : b ∈ l2 := List.mem_of_find?_eq_some h2
        have hbp := List.find?_some h2
        have hb1 : b ∈ l1 := h.symm.subset hb2
        have hab : a = b := by
          apply List.inj_on_of_nodup_map hnd ha1 hb1
          rw [show a.1 = k by simpa using hap, show b.1 = k by simpa using hbp]
        rw [dictGet, h2, ← hab]
        simpa using hav.symm


/-- The base64 signature `sign_json` attaches: the engine's signature over the
canonical signing input. -/
def signatureOf (signFn : String → String) (json : JObj) : String :=
  signFn (signingInput json)

/-- Claim C9: for two payloads equal as maps but differing in field
insertion order (a permutation with distinct keys), `sign_json` canonically
serializes them to identical signing input, therefore produces identical
signatures, and the `signatures` field of its two outputs is identical. -/
theorem sign_json_order_insensitive (signFn : String → String) (uid did : String)
    (l1 l2 : JObj) (h : l1.Perm l2) (hnd : (l1.map Prod.fst).Nodup) :
    signingInput l1 = signingInput l2 ∧
    signatureOf signFn l1 = signatureOf signFn l2 ∧
    (sign_json signFn uid did l1).map (fun o => dictGet o "signatures") =
      (sign_json signFn uid did l2).map (fun o => dictGet o "signatures") := by
  have hI : signingInput l1 = signingInput l2 := signingInput_perm l1 l2 h hnd
  refine ⟨hI, by rw [signatureOf, signatureOf, hI], ?_⟩
  have hS : dictGet l1 "signatures" = dictGet l2 "signatures" :=
    dictGet_perm l1 l2 h hnd "signatures"
  cases hX : (dictGet l1 "signatures").getD (JVal.obj []) with
  | obj sigUsers =>
    cases hY : (dictGet sigUsers uid).getD (JVal.obj []) with
    | obj userSigs =>
      obtain ⟨_, _, h1sig⟩ := sign_out_props l1
        (JVal.obj (dictSet sigUsers uid (JVal.obj (dictSet userSigs
          ("ed25519:" ++ did) (JVal.str (signFn (signingInput l1)))))))
      obtain ⟨_, _, h2sig⟩ := sign_out_props l2
        (JVal.obj (dictSet sigUsers uid (JVal.obj (dictSet userSigs
          ("ed25519:" ++ did) (JVal.str (signFn (signingInput l1)))))))
      simp only [sign_json, popKey, ← hS, hX, hY]
      rw [← hI]
      simp only [Option.map]
      rw [h1sig, h2sig]
    | null =>
      simp only [sign_json, popKey, ← hS, hX, hY]
    | bool b =>
      simp only [sign_json, popKey, ← hS, hX, hY]
    | num n =>
      simp only [sign_json, popKey, ← hS, hX, hY]
    | str s =>
      simp only [sign_json, popKey, ← hS, hX, hY]
    | arr xs =>
      simp only [sign_json, popKey, ← hS, hX, hY]
  | null => simp only [sign_json, popKey, ← hS, hX]
  | bool b => simp only [sign_json, popKey, ← hS, hX]
  | num n => simp only [sign_json, popKey, ← hS, hX]
  | str s => simp only [sign_json, popKey, ← hS, hX]
  | arr xs => simp only [sign_json, popKey, ← hS, hX]

/-- Claim C9, witness: the theorem applied to the two insertion orders of a
concrete two-field payload. -/
theorem sign_json_order_insensitive_witness :
    (([(("b" : String), JVal.num 2), ("a", JVal.str "x")] : JObj).Perm
      [("a", JVal.str "x"), ("b", JVal.num 2)]) ∧
    ((([(("b" : String), JVal.num 2), ("a", JVal.str "x")] : JObj).map
      Prod.fst).Nodup) ∧
    (signingInput [("b", JVal.num 2), ("a", JVal.str "x")] =
      signingInput [("a", JVal.str "x"), ("b", JVal.num 2)] ∧
    signatureOf (fun s => "sig:" ++ s) [("b", JVal.num 2), ("a", JVal.str "x")] =
      signatureOf (fun s => "sig:" ++ s) [("a", JVal.str "x"), ("b", JVal.num 2)] ∧
    (sign_json (fun s => "sig:" ++ s) "@u" "D"
        [("b", JVal.num 2), ("a", JVal.str "x")]).map
          (fun o => dictGet o "signatures") =
      (sign_json (fun s => "sig:" ++ s) "@u" "D"
        [("a", JVal.str "x"), ("b", JVal.num 2)]).map
          (fun o => dictGet o "signatures")) :=
  ⟨List.Perm.swap ("a", JVal.str "x") ("b", JVal.num 2) [], by decide,
    sign_json_order_insensitive (fun s => "sig:" ++ s) "@u" "D"
      [("b", JVal.num 2), ("a", JVal.str "x")]
      [("a", JVal.str "x"), ("b", JVal.num 2)]
      (List.Perm.swap ("a", JVal.str "x") ("b", JVal.num 2) []) (by decide)⟩


end MatrixSDK
